import Mathlib

/-!
Shallow embedding of `src/coordinator.py` (2PC/3PC transaction coordinator
with WAL persistence and bounded-retry verdict delivery).

Modelling choices:
* Python dicts keyed by strings become association lists with
  insert-or-replace semantics (`pyDictSet`), preserving insertion order.
* The network is an oracle `Net`: for each participant, the outcome of its
  single voting-phase call (`vote1`), and for each (participant, endpoint,
  attempt index) whether a delivery attempt succeeds (`deliver`).
* `post_json` is embedded as `Except Unit (Nat × Option String)`: the
  `.error` case models a raised exception (connection error, timeout,
  non-2xx status, malformed response); callers pattern-match on it exactly
  where the Python callers have `try/except`.
* Each run produces an event trace (`Ev`): WAL appends, issued RPCs,
  sleeps, the retry-exhaustion log line, and every mutation of the
  transaction-table entry, in program order.
-/

namespace Coordinator

/-- Transport-level outcome of one HTTP POST, as seen by `post_json`.
`ok status vote` is a successful round trip whose parsed JSON body has the
given stringified `vote` field (or none); the other constructors are the
failure modes that `urllib`/JSON parsing raise as exceptions. -/
inductive Transport where
  | ok (status : Nat) (vote : Option String)
  | connError
  | timeout
  | malformed
  deriving DecidableEq

/-- Embedding of `post_json` (coordinator.py lines 36-40): a successful
round trip returns the status and parsed body; every failure mode raises,
i.e. returns `.error`, which the caller must catch. -/
def post_json : Transport → Except Unit (Nat × Option String)
  | .ok s v => .ok (s, v)
  | .connError => .error ()
  | .timeout => .error ()
  | .malformed => .error ()

/-- The network oracle for one run: voting-phase response per participant,
and per-attempt success of verdict-delivery calls. -/
structure Net where
  vote1 : String → Transport
  deliver : String → String → Nat → Bool

/-- Python dict assignment `d[k] = v`: replace in place if the key exists,
else append (insertion order preserved). -/
def pyDictSet {α : Type} (m : List (String × α)) (k : String) (v : α) :
    List (String × α) :=
  if m.any (fun kv => kv.1 == k) then
    m.map (fun kv => if kv.1 == k then (k, v) else kv)
  else m ++ [(k, v)]

/-- Python `d.setdefault(k, v)`: insert only if the key is absent. -/
def pySetdefault {α : Type} (m : List (String × α)) (k : String) (v : α) :
    List (String × α) :=
  if m.any (fun kv => kv.1 == k) then m else m ++ [(k, v)]

/-- One transaction-table record (the dict stored at `TX[txid]`).
`protocol` and `op` are `Option` because records rebuilt by WAL replay
lack those keys. -/
structure TxRec where
  txid : String
  protocol : Option String
  state : String
  votes : List (String × String)
  decision : Option String
  participants : List String
  op : Option String
  deriving DecidableEq

/-- The in-memory transaction table `TX`. -/
abbrev Table := List (String × TxRec)

/-- Python `str.strip()` (ASCII whitespace), on the character list. -/
def pyStrip (cs : List Char) : List Char :=
  ((cs.dropWhile Char.isWhitespace).reverse.dropWhile
    Char.isWhitespace).reverse

/-- Python `split(" ")` on a character list: split on every single space,
keeping empty words between consecutive spaces. -/
def splitSp : List Char → List (List Char)
  | [] => [[]]
  | c :: rest =>
      match splitSp rest with
      | [] => [[]]
      | w :: ws => if c = ' ' then [] :: w :: ws else (c :: w) :: ws

/-- Rejoin words with single spaces (the unsplit tail of a bounded
`split`). -/
def joinSp : List (List Char) → List Char
  | [] => []
  | [w] => w
  | w :: ws => w ++ ' ' :: joinSp ws

/-- Python `line.strip().split(" ", 2)`: split on single spaces with at
most two splits (so at most three parts, the third keeping its spaces). -/
def split2 (s : String) : List String :=
  match splitSp (pyStrip s.data) with
  | a :: b :: c :: rest =>
      [String.mk a, String.mk b, String.mk (joinSp (c :: rest))]
  | xs => xs.map String.mk

/-- Parse one WAL line as `replay_wal` does: txid and state are the first
two space-separated fields; lines with fewer than two fields are skipped. -/
def lineParse (line : String) : Option (String × String) :=
  match split2 line with
  | t :: st :: _ => some (t, st)
  | _ => none

/-- The degraded record `replay_wal` rebuilds for a txid: only the state is
recovered; votes are empty, decision unknown, participants are the
currently configured list (coordinator.py lines 60-66). -/
def replayRec (ps : List String) (k st : String) : TxRec :=
  ⟨k, none, st, [], none, ps, none⟩

/-- One line of WAL replay: `TX.setdefault(txid, {...})` for a parsed
line, no-op otherwise. -/
def replayStep (ps : List String) (t : Table) (line : String) : Table :=
  match lineParse line with
  | some (k, st) => pySetdefault t k (replayRec ps k st)
  | none => t

/-- Embedding of `replay_wal` (coordinator.py lines 50-68): fold the WAL
lines over the transaction table, inserting a degraded record for each
txid not already present. `ps` is the configured participant list. -/
def replay_wal (ps : List String) (lines : List String) (t : Table) :
    Table :=
  lines.foldl (replayStep ps) t

/-- Trailing free-form data of a WAL line after `"<txid> <STATE>"`. -/
inductive Trail where
  | empty
  | op (o : String)
  | votes (v : List (String × String))
  deriving DecidableEq

/-- Observable events of a coordinator run, in program order. -/
inductive Ev where
  | wal (txid st : String) (t : Trail)
  | rpc (p ep : String)
  | sleepMs (n : Nat)
  | logFail (p ep : String)
  | txCreate (r : TxRec)
  | setVotes (txid : String) (v : List (String × String))
  | setDecision (txid : String) (d : Option String)
  | setState (txid st : String)
  deriving DecidableEq

/-- Python `str.upper()` restricted to its ASCII case mapping: uppercase
every character of the string. -/
def pyUpper (s : String) : String := String.mk (s.data.map Char.toUpper)

/-- The vote the coordinator records for participant `p` in the voting
phase: `str(resp.get("vote", "NO")).upper()` on success, `"NO_TIMEOUT"`
when `post_json` raises (coordinator.py lines 86-94 / 138-146). -/
def voteOf (net : Net) (p : String) : String :=
  match post_json (net.vote1 p) with
  | .ok (_, v) => pyUpper (v.getD "NO")
  | .error _ => "NO_TIMEOUT"

/-- The voting loop: fills the `votes` dict and threads `all_yes`. -/
def collectVotes (net : Net) : List String → List (String × String) → Bool →
    List (String × String) × Bool
  | [], m, ay => (m, ay)
  | p :: ps, m, ay =>
      let v := voteOf net p
      collectVotes net ps (pyDictSet m p v) (ay && (v == "YES"))

/-- RPC events issued by the voting loop (one attempt per participant). -/
def voteRpcs (parts : List String) (ep : String) : List Ev :=
  parts.map (fun p => Ev.rpc p ep)

/-- The per-participant bounded-retry delivery loop
(`for i in range(3): try post; break; except: sleep(0.5); if last: print`).
`rem` is the number of attempts still available, `i` the 0-based attempt
index; the log line fires on the last attempt's failure, after its sleep. -/
def tryDeliver (d : Nat → Bool) (p ep : String) : Nat → Nat → List Ev
  | 0, _ => []
  | rem + 1, i =>
      Ev.rpc p ep ::
        (if d i then []
         else Ev.sleepMs 500 ::
           ((if rem == 0 then [Ev.logFail p ep] else []) ++
             tryDeliver d p ep rem (i + 1)))

/-- Verdict broadcast: the retry loop run for each participant in order. -/
def deliverAll (net : Net) (parts : List String) (ep : String) : List Ev :=
  parts.flatMap (fun p => tryDeliver (net.deliver p ep) p ep 3 0)

/-- `endpoint = "/commit" if decision == "COMMIT" else "/abort"`
(coordinator.py line 104). -/
def verdictEndpoint (decision : String) : String :=
  if decision == "COMMIT" then "/commit" else "/abort"

/-- Result of one coordinator run: the event trace, the returned JSON
fields, the final `TX[txid]` record, and the updated table. -/
structure RunOut where
  events : List Ev
  ok : Bool
  decision : String
  votes : List (String × String)
  tx : TxRec
  table : Table

/-- Embedding of `two_pc` (coordinator.py lines 73-120). -/
def two_pc (net : Net) (parts : List String) (txid op : String)
    (tx : Table) : RunOut :=
  let rec0 : TxRec :=
    ⟨txid, some "2PC", "PREPARE_SENT", [], none, parts, some op⟩
  let vres := collectVotes net parts [] true
  let votes := vres.1
  let decision := if vres.2 then "COMMIT" else "ABORT"
  let ep := verdictEndpoint decision
  let fin : TxRec := { rec0 with
    votes := votes, decision := some decision, state := "DONE" }
  { events :=
      [Ev.txCreate rec0, Ev.wal txid "PREPARE_SENT" (Trail.op op)] ++
      voteRpcs parts "/prepare" ++
      [Ev.setVotes txid votes, Ev.setDecision txid (some decision),
       Ev.setState txid (decision ++ "_SENT"),
       Ev.wal txid (decision ++ "_SENT") (Trail.votes votes)] ++
      deliverAll net parts ep ++
      [Ev.setState txid "DONE", Ev.wal txid "DONE" Trail.empty],
    ok := true,
    decision := decision,
    votes := votes,
    tx := fin,
    table := pyDictSet tx txid fin }

/-- Embedding of `three_pc` (coordinator.py lines 125-209). -/
def three_pc (net : Net) (parts : List String) (txid op : String)
    (tx : Table) : RunOut :=
  let rec0 : TxRec :=
    ⟨txid, some "3PC", "CAN_COMMIT_SENT", [], none, parts, some op⟩
  let vres := collectVotes net parts [] true
  let votes := vres.1
  if vres.2 then
    let fin : TxRec := { rec0 with
      votes := votes, decision := some "COMMIT", state := "DONE" }
    { events :=
        [Ev.txCreate rec0, Ev.wal txid "CAN_COMMIT_SENT" (Trail.op op)] ++
        voteRpcs parts "/can_commit" ++
        [Ev.setVotes txid votes] ++
        [Ev.setDecision txid (some "PRECOMMIT"),
         Ev.setState txid "PRECOMMIT_SENT",
         Ev.wal txid "PRECOMMIT_SENT" Trail.empty] ++
        deliverAll net parts "/precommit" ++
        [Ev.sleepMs 2000] ++
        [Ev.setDecision txid (some "COMMIT"),
         Ev.setState txid "DOCOMMIT_SENT",
         Ev.wal txid "DOCOMMIT_SENT" Trail.empty] ++
        deliverAll net parts "/commit" ++
        [Ev.setState txid "DONE", Ev.wal txid "DONE" Trail.empty],
      ok := true,
      decision := "COMMIT",
      votes := votes,
      tx := fin,
      table := pyDictSet tx txid fin }
  else
    let fin : TxRec := { rec0 with
      votes := votes, decision := some "ABORT", state := "DONE" }
    { events :=
        [Ev.txCreate rec0, Ev.wal txid "CAN_COMMIT_SENT" (Trail.op op)] ++
        voteRpcs parts "/can_commit" ++
        [Ev.setVotes txid votes] ++
        [Ev.setDecision txid (some "ABORT"),
         Ev.setState txid "ABORT_SENT",
         Ev.wal txid "ABORT_SENT" (Trail.votes votes)] ++
        deliverAll net parts "/abort" ++
        [Ev.setState txid "DONE", Ev.wal txid "DONE" Trail.empty],
      ok := true,
      decision := "ABORT",
      votes := votes,
      tx := fin,
      table := pyDictSet tx txid fin }

/-! ## Association-list (Python dict) lemmas -/

/-- `List.lookup` through a cons cell, with propositional key equality. -/
theorem lookup_cons {α : Type} (k a : String) (v : α)
    (m : List (String × α)) :
    List.lookup k ((a, v) :: m) = if k = a then some v else List.lookup k m := by
  by_cases h : k = a
  · simp [List.lookup, h]
  · simp [List.lookup, beq_eq_false_iff_ne.mpr h, h]

theorem pyDictSet_pos {α : Type} (m : List (String × α)) (k : String)
    (v : α) (h : m.any (fun kv => kv.1 == k) = true) :
    pyDictSet m k v =
      m.map (fun kv => if kv.1 == k then (k, v) else kv) := by
  simp [pyDictSet, h]

theorem pyDictSet_neg {α : Type} (m : List (String × α)) (k : String)
    (v : α) (h : m.any (fun kv => kv.1 == k) = false) :
    pyDictSet m k v = m ++ [(k, v)] := by
  simp [pyDictSet, h]

theorem lookup_pyDictSet_self {α : Type} (m : List (String × α))
    (k : String) (v : α) :
    List.lookup k (pyDictSet m k v) = some v := by
  induction m with
  | nil => simp [pyDictSet, lookup_cons]
  | cons hd m ih =>
      obtain ⟨a1, a2⟩ := hd
      by_cases hk : a1 = k
      · rw [pyDictSet_pos ((a1, a2) :: m) k v (by simp [hk])]
        simp only [List.map_cons]
        rw [if_pos (by simp [hk] : ((a1 == k) = true))]
        rw [lookup_cons, if_pos rfl]
      · have hbeq : (a1 == k) = false := beq_eq_false_iff_ne.mpr hk
        by_cases hany : m.any (fun kv => kv.1 == k) = true
        · rw [pyDictSet_pos ((a1, a2) :: m) k v (by simp [hbeq, hany])]
          rw [pyDictSet_pos m k v hany] at ih
          simp only [List.map_cons]
          rw [if_neg (by simp [hbeq] : ¬((a1 == k) = true))]
          rw [lookup_cons, if_neg (Ne.symm hk)]
          exact ih
        · rw [Bool.not_eq_true] at hany
          rw [pyDictSet_neg ((a1, a2) :: m) k v (by simp [hbeq, hany])]
          rw [pyDictSet_neg m k v hany] at ih
          rw [List.cons_append, lookup_cons, if_neg (Ne.symm hk)]
          exact ih

theorem pySetdefault_neg_eq {α : Type} (m : List (String × α))
    (k : String) (v : α) (h : m.any (fun kv => kv.1 == k) = false) :
    pySetdefault m k v = m ++ [(k, v)] := by
  simp [pySetdefault, h]

theorem map_replace_of_no_key {α : Type} (m : List (String × α))
    (k : String) (v : α) (h : m.any (fun kv => kv.1 == k) = false) :
    m.map (fun kv => if kv.1 == k then (k, v) else kv) = m := by
  induction m with
  | nil => rfl
  | cons hd t ih =>
      simp only [List.any_cons, Bool.or_eq_false_iff] at h
      rw [List.map_cons, if_neg (by simp [h.1] : ¬((hd.1 == k) = true)),
        ih h.2]

theorem lookup_pyDictSet_ne {α : Type} (m : List (String × α))
    (k q : String) (v : α) (hq : q ≠ k) :
    List.lookup q (pyDictSet m k v) = List.lookup q m := by
  induction m with
  | nil => simp [pyDictSet, lookup_cons, hq]
  | cons hd m ih =>
      obtain ⟨a1, a2⟩ := hd
      by_cases hk : a1 = k
      · rw [pyDictSet_pos ((a1, a2) :: m) k v (by simp [hk])]
        simp only [List.map_cons]
        rw [if_pos (by simp [hk] : ((a1 == k) = true))]
        rw [lookup_cons, lookup_cons, if_neg hq,
          if_neg (fun h => hq (h.trans hk))]
        by_cases htl : m.any (fun kv => kv.1 == k) = true
        · rw [pyDictSet_pos m k v htl] at ih
          exact ih
        · rw [Bool.not_eq_true] at htl
          rw [map_replace_of_no_key m k v htl]
      · have hbeq : (a1 == k) = false := beq_eq_false_iff_ne.mpr hk
        by_cases htl : m.any (fun kv => kv.1 == k) = true
        · rw [pyDictSet_pos ((a1, a2) :: m) k v (by simp [hbeq, htl])]
          rw [pyDictSet_pos m k v htl] at ih
          simp only [List.map_cons]
          rw [if_neg (by simp [hbeq] : ¬((a1 == k) = true))]
          rw [lookup_cons, lookup_cons]
          by_cases hqa : q = a1
          · simp [hqa]
          · rw [if_neg hqa, if_neg hqa]
            exact ih
        · rw [Bool.not_eq_true] at htl
          rw [pyDictSet_neg ((a1, a2) :: m) k v (by simp [hbeq, htl])]
          rw [pyDictSet_neg m k v htl] at ih
          rw [List.cons_append, lookup_cons, lookup_cons]
          by_cases hqa : q = a1
          · simp [hqa]
          · rw [if_neg hqa, if_neg hqa]
            exact ih

theorem lookup_append_some {α : Type} {m u : List (String × α)} {k : String}
    {v : α} (h : List.lookup k m = some v) :
    List.lookup k (m ++ u) = some v := by
  induction m with
  | nil => simp [List.lookup] at h
  | cons hd m ih =>
      obtain ⟨a1, a2⟩ := hd
      rw [lookup_cons] at h
      rw [List.cons_append, lookup_cons]
      by_cases hk : k = a1
      · simpa [hk] using h
      · rw [if_neg hk] at h ⊢; exact ih h

theorem lookup_append_none {α : Type} {m : List (String × α)} {k : String}
    (u : List (String × α)) (h : List.lookup k m = none) :
    List.lookup k (m ++ u) = List.lookup k u := by
  induction m with
  | nil => simp
  | cons hd m ih =>
      obtain ⟨a1, a2⟩ := hd
      rw [lookup_cons] at h
      rw [List.cons_append, lookup_cons]
      by_cases hk : k = a1
      · simp [hk] at h
      · rw [if_neg hk] at h ⊢; exact ih h

theorem lookup_none_iff_any_false {α : Type} (m : List (String × α))
    (k : String) :
    List.lookup k m = none ↔ m.any (fun kv => kv.1 == k) = false := by
  induction m with
  | nil => simp [List.lookup]
  | cons hd m ih =>
      obtain ⟨a1, a2⟩ := hd
      rw [lookup_cons]
      by_cases hk : k = a1
      · subst hk; simp
      · simp only [if_neg hk, List.any_cons,
          beq_eq_false_iff_ne.mpr (Ne.symm hk), Bool.false_or]
        exact ih

/-! ## Voting-phase lemmas -/

theorem collectVotes_snd (net : Net) (parts : List String)
    (m : List (String × String)) (b : Bool) :
    (collectVotes net parts m b).2 =
      (b && parts.all (fun p => voteOf net p == "YES")) := by
  induction parts generalizing m b with
  | nil => simp [collectVotes]
  | cons p ps ih =>
      simp only [collectVotes, ih, List.all_cons, Bool.and_assoc]

theorem collectVotes_lookup (net : Net) (parts : List String)
    (m : List (String × String)) (b : Bool) (q : String) :
    List.lookup q (collectVotes net parts m b).1 =
      if q ∈ parts then some (voteOf net q) else List.lookup q m := by
  induction parts generalizing m b with
  | nil => simp [collectVotes]
  | cons p ps ih =>
      simp only [collectVotes, ih]
      by_cases hmem : q ∈ ps
      · simp [hmem]
      · by_cases hqp : q = p
        · subst hqp
          simp [hmem, lookup_pyDictSet_self]
        · simp [hmem, hqp, lookup_pyDictSet_ne _ _ _ _ hqp]

/-! ## Claim theorems -/

/-- C10: every completed `two_pc` or `three_pc` run returns `ok = True`,
whatever the decision and whatever the participants answered. -/
theorem C10_runs_always_return_ok (net : Net) (parts : List String)
    (txid op : String) (tx : Table) :
    (two_pc net parts txid op tx).ok = true ∧
      (three_pc net parts txid op tx).ok = true := by
  constructor
  · simp [two_pc]
  · by_cases h : (collectVotes net parts [] true).2 <;> simp [three_pc, h]

/-- C1: the decision `two_pc` returns and stores is `COMMIT` iff every
configured participant's recorded vote is `YES`; a transport failure is
recorded as `NO_TIMEOUT`, and any recorded vote other than `YES` forces
`ABORT`. -/
theorem C1_two_pc_decision_commit_iff_all_yes (net : Net)
    (parts : List String) (txid op : String) (tx : Table) :
    (two_pc net parts txid op tx).tx.decision =
        some (two_pc net parts txid op tx).decision ∧
    List.lookup txid (two_pc net parts txid op tx).table =
        some (two_pc net parts txid op tx).tx ∧
    ((two_pc net parts txid op tx).decision = "COMMIT" ↔
        ∀ p ∈ parts,
          List.lookup p (two_pc net parts txid op tx).votes = some "YES") ∧
    (∀ p ∈ parts, post_json (net.vote1 p) = Except.error () →
        List.lookup p (two_pc net parts txid op tx).votes =
          some "NO_TIMEOUT") ∧
    ((∃ p ∈ parts,
        List.lookup p (two_pc net parts txid op tx).votes ≠ some "YES") →
      (two_pc net parts txid op tx).decision = "ABORT") := by
  have hv : (two_pc net parts txid op tx).votes =
      (collectVotes net parts [] true).1 := by
    simp [two_pc]
  have hd : (two_pc net parts txid op tx).decision =
      (if parts.all (fun p => voteOf net p == "YES") then "COMMIT"
       else "ABORT") := by
    simp [two_pc, collectVotes_snd]
  refine ⟨by simp [two_pc], by simp [two_pc, lookup_pyDictSet_self], ?_, ?_, ?_⟩
  · rw [hd, hv]
    by_cases hall : parts.all (fun p => voteOf net p == "YES") = true
    · rw [if_pos hall]
      simp only [List.all_eq_true] at hall
      constructor
      · intro _ p hp
        rw [collectVotes_lookup, if_pos hp]
        simpa using hall p hp
      · intro _; rfl
    · rw [if_neg hall]
      constructor
      · intro h; exact absurd h (by decide)
      · intro hyes
        exfalso
        apply hall
        rw [List.all_eq_true]
        intro p hp
        have h2 := hyes p hp
        rw [collectVotes_lookup, if_pos hp] at h2
        simpa using h2
  · intro p hp herr
    rw [hv, collectVotes_lookup, if_pos hp]
    unfold voteOf
    rw [herr]
  · intro ⟨p, hp, hne⟩
    rw [hd]
    by_cases hall : parts.all (fun p => voteOf net p == "YES") = true
    · exfalso
      apply hne
      rw [hv, collectVotes_lookup, if_pos hp]
      simp only [List.all_eq_true] at hall
      simpa using hall p hp
    · rw [if_neg hall]

/-! ## WAL replay lemmas -/

theorem replayStep_preserves_lookup (ps : List String) (l : String)
    (t : Table) (k : String) (r : TxRec) (h : List.lookup k t = some r) :
    List.lookup k (replayStep ps t l) = some r := by
  unfold replayStep
  cases hparse : lineParse l with
  | none => exact h
  | some pr =>
      obtain ⟨k2, st⟩ := pr
      unfold pySetdefault
      by_cases hany : t.any (fun kv => kv.1 == k2) = true
      · simpa [hany] using h
      · rw [Bool.not_eq_true] at hany
        simp only [hany]
        simpa using lookup_append_some h

theorem replay_preserves_lookup (ps : List String) (lines : List String)
    (t : Table) (k : String) (r : TxRec) (h : List.lookup k t = some r) :
    List.lookup k (replay_wal ps lines t) = some r := by
  induction lines generalizing t with
  | nil => exact h
  | cons l ls ih =>
      have hstep := replayStep_preserves_lookup ps l t k r h
      simpa [replay_wal, List.foldl_cons] using ih (replayStep ps t l) hstep

/-- `hasKey t k` is the membership test `TX.setdefault` performs. -/
def hasKey (t : Table) (k : String) : Bool :=
  t.any (fun kv => kv.1 == k)

theorem hasKey_replayStep_mono (ps : List String) (l : String) (t : Table)
    (k : String) (h : hasKey t k = true) :
    hasKey (replayStep ps t l) k = true := by
  unfold replayStep
  cases hparse : lineParse l with
  | none => exact h
  | some pr =>
      obtain ⟨k2, st⟩ := pr
      unfold pySetdefault
      by_cases hany : t.any (fun kv => kv.1 == k2) = true
      · simpa [hany] using h
      · rw [Bool.not_eq_true] at hany
        simp only [hany]
        simp only [hasKey] at h ⊢
        simp [List.any_append, h]

theorem hasKey_replay_mono (ps : List String) (lines : List String)
    (t : Table) (k : String) (h : hasKey t k = true) :
    hasKey (replay_wal ps lines t) k = true := by
  induction lines generalizing t with
  | nil => exact h
  | cons l ls ih =>
      simpa [replay_wal, List.foldl_cons] using
        ih (replayStep ps t l) (hasKey_replayStep_mono ps l t k h)

theorem hasKey_replayStep_of_parse (ps : List String) (l : String)
    (t : Table) (k st : String) (h : lineParse l = some (k, st)) :
    hasKey (replayStep ps t l) k = true := by
  unfold replayStep
  rw [h]
  unfold pySetdefault
  by_cases hany : t.any (fun kv => kv.1 == k) = true
  · simp [hany, hasKey]
  · rw [Bool.not_eq_true] at hany
    simp only [hany]
    simp [hasKey, List.any_append]

theorem hasKey_replay_of_line_mem (ps : List String) (lines : List String)
    (t : Table) (l : String) (k st : String) (hl : l ∈ lines)
    (hp : lineParse l = some (k, st)) :
    hasKey (replay_wal ps lines t) k = true := by
  induction lines generalizing t with
  | nil => cases hl
  | cons l2 ls ih =>
      rcases List.mem_cons.mp hl with h2 | h2
      · subst h2
        simpa [replay_wal, List.foldl_cons] using
          hasKey_replay_mono ps ls (replayStep ps t l) k
            (hasKey_replayStep_of_parse ps l t k st hp)
      · simpa [replay_wal, List.foldl_cons] using ih (replayStep ps t l2) h2

theorem replayStep_id_of_hasKey (ps : List String) (l : String) (t : Table)
    (h : ∀ k st, lineParse l = some (k, st) → hasKey t k = true) :
    replayStep ps t l = t := by
  unfold replayStep
  cases hparse : lineParse l with
  | none => rfl
  | some pr =>
      obtain ⟨k2, st⟩ := pr
      have := h k2 st hparse
      unfold pySetdefault
      simp [hasKey] at this
      simp [this]

theorem replay_id_of_all_steps_id (ps : List String) (lines : List String)
    (T : Table) (h : ∀ l ∈ lines, replayStep ps T l = T) :
    replay_wal ps lines T = T := by
  induction lines with
  | nil => rfl
  | cons l ls ih =>
      rw [replay_wal, List.foldl_cons, h l (List.mem_cons_self l ls)]
      exact ih (fun l2 h2 => h l2 (List.mem_cons_of_mem l h2))

theorem replay_wal_idem (ps : List String) (lines : List String)
    (t : Table) :
    replay_wal ps lines (replay_wal ps lines t) = replay_wal ps lines t := by
  apply replay_id_of_all_steps_id
  intro l hl
  apply replayStep_id_of_hasKey
  intro k st hp
  exact hasKey_replay_of_line_mem ps lines t l k st hl hp

theorem keys_nodup_replayStep (ps : List String) (l : String) (t : Table)
    (h : (t.map (fun kv => kv.1)).Nodup) :
    ((replayStep ps t l).map (fun kv => kv.1)).Nodup := by
  cases hparse : lineParse l with
  | none => simp only [replayStep, hparse]; exact h
  | some pr =>
      obtain ⟨k2, st⟩ := pr
      simp only [replayStep, hparse]
      by_cases hany : t.any (fun kv => kv.1 == k2) = true
      · simpa [pySetdefault, hany] using h
      · rw [Bool.not_eq_true] at hany
        rw [pySetdefault_neg_eq t k2 _ hany]
        rw [List.map_append]
        simp only [List.map_cons, List.map_nil]
        rw [List.nodup_append]
        refine ⟨h, List.nodup_singleton _, ?_⟩
        intro a ha hb
        simp only [List.mem_singleton] at hb
        subst hb
        rcases List.mem_map.mp ha with ⟨kv, hkv, hkv2⟩
        have h2 := List.any_eq_false.mp hany kv hkv
        exact h2 (by simp [hkv2])

theorem keys_nodup_replay (ps : List String) (lines : List String)
    (t : Table) (h : (t.map (fun kv => kv.1)).Nodup) :
    ((replay_wal ps lines t).map (fun kv => kv.1)).Nodup := by
  induction lines generalizing t with
  | nil => exact h
  | cons l ls ih =>
      simpa [replay_wal, List.foldl_cons] using
        ih (replayStep ps t l) (keys_nodup_replayStep ps l t h)

/-- The state recorded on the first well-formed WAL line for `txid`. -/
def firstStateFor (txid : String) : List String → Option String
  | [] => none
  | l :: ls =>
      match lineParse l with
      | some (t, st) => if t = txid then some st else firstStateFor txid ls
      | none => firstStateFor txid ls

/-- C6: WAL replay is idempotent: it never overwrites an existing table
entry, replaying the same log a second time leaves the table identical,
and replay introduces no duplicate txid entries. -/
theorem C6_replay_wal_idempotent (ps lines : List String) (t : Table) :
    (∀ k r, List.lookup k t = some r →
        List.lookup k (replay_wal ps lines t) = some r) ∧
    replay_wal ps lines (replay_wal ps lines t) = replay_wal ps lines t ∧
    ((t.map (fun kv => kv.1)).Nodup →
        ((replay_wal ps lines t).map (fun kv => kv.1)).Nodup) := by
  refine ⟨?_, replay_wal_idem ps lines t, keys_nodup_replay ps lines t⟩
  intro k r h
  exact replay_preserves_lookup ps lines t k r h

/-- Witness for C6 at a concrete input: a pre-existing entry survives a
replay of a log that mentions the same txid, and the replayed table has
duplicate-free keys. -/
theorem C6_witness :
    List.lookup "t0"
        (replay_wal ["q"] ["t0 DONE", "t1 PREPARE_SENT x"]
          [("t0", replayRec ["q"] "t0" "INIT")]) =
      some (replayRec ["q"] "t0" "INIT") ∧
    ((replay_wal ["q"] ["t0 DONE", "t1 PREPARE_SENT x"]
        [("t0", replayRec ["q"] "t0" "INIT")]).map
      (fun kv => kv.1)).Nodup :=
  ⟨(C6_replay_wal_idempotent ["q"] ["t0 DONE", "t1 PREPARE_SENT x"]
      [("t0", replayRec ["q"] "t0" "INIT")]).1 "t0" _ (by decide),
   (C6_replay_wal_idempotent ["q"] ["t0 DONE", "t1 PREPARE_SENT x"]
      [("t0", replayRec ["q"] "t0" "INIT")]).2.2 (by decide)⟩

/-- C3's counterexample: a log with two well-formed lines for `t1`
(`PREPARE_SENT` then `DONE`) rebuilds `t1` with the FIRST line's state,
not the last line's state `DONE`. -/
theorem C3_counterexample :
    List.lookup "t1" (replay_wal [] ["t1 PREPARE_SENT x", "t1 DONE"] []) =
      some (replayRec [] "t1" "PREPARE_SENT") ∧
    "PREPARE_SENT" ≠ "DONE" := by
  constructor
  · decide
  · decide

/-- C3 amended: after replay, a txid absent from the initial table is
present with the state of the FIRST well-formed WAL line for it (empty
votes, no decision, currently configured participants). -/
theorem C3_replay_state_is_first_line (ps lines : List String) (t : Table)
    (txid s : String) (h0 : List.lookup txid t = none)
    (h1 : firstStateFor txid lines = some s) :
    List.lookup txid (replay_wal ps lines t) =
      some (replayRec ps txid s) := by
  induction lines generalizing t with
  | nil => cases h1
  | cons l ls ih =>
      rw [replay_wal, List.foldl_cons]
      cases hparse : lineParse l with
      | none =>
          simp only [firstStateFor, hparse] at h1
          have hstep : replayStep ps t l = t := by
            unfold replayStep; rw [hparse]
          rw [hstep]
          exact ih t h0 h1
      | some pr =>
          obtain ⟨k2, st⟩ := pr
          simp only [firstStateFor, hparse] at h1
          by_cases hk : k2 = txid
          · subst hk
            rw [if_pos rfl] at h1
            have hst : st = s := by injection h1
            subst hst
            have hany : t.any (fun kv => kv.1 == k2) = false :=
              (lookup_none_iff_any_false t k2).mp h0
            have hstep : replayStep ps t l = t ++ [(k2, replayRec ps k2 st)] := by
              unfold replayStep
              rw [hparse]
              exact pySetdefault_neg_eq t k2 _ hany
            rw [hstep]
            have hlook : List.lookup k2 (t ++ [(k2, replayRec ps k2 st)]) =
                some (replayRec ps k2 st) := by
              rw [lookup_append_none _ h0, lookup_cons, if_pos rfl]
            exact replay_preserves_lookup ps ls _ k2 _ hlook
          · rw [if_neg hk] at h1
            have hstep : List.lookup txid (replayStep ps t l) = none := by
              simp only [replayStep, hparse]
              by_cases hany : t.any (fun kv => kv.1 == k2) = true
              · simpa [pySetdefault, hany] using h0
              · rw [Bool.not_eq_true] at hany
                rw [pySetdefault_neg_eq t k2 _ hany]
                rw [lookup_append_none _ h0, lookup_cons,
                  if_neg (fun he => hk he.symm)]
                rfl
            exact ih (replayStep ps t l) hstep h1

/-- Witness for C3's amended theorem at a concrete input. -/
theorem C3_witness :
    List.lookup "t1" (replay_wal ["q"] ["t1 A 1", "t1 B 2"] []) =
      some (replayRec ["q"] "t1" "A") :=
  C3_replay_state_is_first_line ["q"] ["t1 A 1", "t1 B 2"] [] "t1" "A"
    (by decide) (by decide)

/-- Concrete oracle: every participant answers `YES` and every delivery
succeeds. -/
def netAllYes : Net := ⟨fun _ => .ok 200 (some "YES"), fun _ _ _ => true⟩

/-- Concrete oracle: every participant answers `no` (lower case) and every
delivery succeeds. -/
def netAllNo : Net := ⟨fun _ => .ok 200 (some "no"), fun _ _ _ => true⟩

/-- Concrete oracle: every call raises (times out). -/
def netAllDown : Net := ⟨fun _ => .timeout, fun _ _ _ => false⟩

/-- Witness for C1 at a concrete input: two participants both voting
`YES`, all hypotheses discharged by evaluation. -/
theorem C1_witness :
    (two_pc netAllYes ["p1", "p2"] "t1" "op" []).decision = "COMMIT" :=
  (C1_two_pc_decision_commit_iff_all_yes netAllYes ["p1", "p2"] "t1" "op"
    []).2.2.1.mpr (by decide)

/-! ## Decision-history lemmas (C2) -/

/-- The decision value an event writes to the table, if any: creating the
record sets its `decision` field, `setDecision` overwrites it. -/
def decEvt : Ev → Option (Option String)
  | .txCreate r => some r.decision
  | .setDecision _ d => some d
  | _ => none

/-- The successive values taken by the `decision` field during a run. -/
def decisionHist (evs : List Ev) : List (Option String) :=
  evs.filterMap decEvt

theorem decisionHist_append (a b : List Ev) :
    decisionHist (a ++ b) = decisionHist a ++ decisionHist b :=
  List.filterMap_append a b decEvt

theorem decisionHist_voteRpcs (parts : List String) (ep : String) :
    decisionHist (voteRpcs parts ep) = [] := by
  induction parts with
  | nil => rfl
  | cons p ps ih =>
      simp only [voteRpcs, List.map_cons, decisionHist,
        List.filterMap_cons, decEvt] at ih ⊢
      exact ih

/-- Every event emitted by the retry loop is an RPC attempt, a retry
sleep, or the retry-exhaustion log line. -/
theorem mem_tryDeliver (a : Ev) (d : Nat → Bool) (p ep : String)
    (n i : Nat) (h : a ∈ tryDeliver d p ep n i) :
    a = Ev.rpc p ep ∨ a = Ev.sleepMs 500 ∨ a = Ev.logFail p ep := by
  induction n generalizing i with
  | zero => cases h
  | succ rem ih =>
      rw [tryDeliver] at h
      rcases List.mem_cons.mp h with h1 | h1
      · exact Or.inl h1
      · by_cases hd : d i = true
        · rw [if_pos hd] at h1; cases h1
        · rw [if_neg hd] at h1
          rcases List.mem_cons.mp h1 with h2 | h2
          · exact Or.inr (Or.inl h2)
          · rcases List.mem_append.mp h2 with h3 | h3
            · by_cases hr : (rem == 0) = true
              · rw [if_pos hr] at h3
                exact Or.inr (Or.inr (List.mem_singleton.mp h3))
              · rw [if_neg hr] at h3; cases h3
            · exact ih (i + 1) h3

theorem decisionHist_tryDeliver (d : Nat → Bool) (p ep : String)
    (n i : Nat) : decisionHist (tryDeliver d p ep n i) = [] := by
  rw [decisionHist, List.filterMap_eq_nil_iff]
  intro a ha
  rcases mem_tryDeliver a d p ep n i ha with h | h | h <;> subst h <;> rfl

theorem decisionHist_deliverAll (net : Net) (parts : List String)
    (ep : String) : decisionHist (deliverAll net parts ep) = [] := by
  induction parts with
  | nil => rfl
  | cons p ps ih =>
      simp only [deliverAll, List.flatMap_cons] at ih ⊢
      rw [decisionHist_append, decisionHist_tryDeliver, List.nil_append]
      exact ih

/-- The event trace of a `two_pc` run, segment by segment. -/
theorem two_pc_events (net : Net) (parts : List String) (txid op : String)
    (tx : Table) :
    (two_pc net parts txid op tx).events =
      [Ev.txCreate ⟨txid, some "2PC", "PREPARE_SENT", [], none, parts,
          some op⟩,
       Ev.wal txid "PREPARE_SENT" (Trail.op op)] ++
      voteRpcs parts "/prepare" ++
      [Ev.setVotes txid (collectVotes net parts [] true).1,
       Ev.setDecision txid (some (two_pc net parts txid op tx).decision),
       Ev.setState txid ((two_pc net parts txid op tx).decision ++ "_SENT"),
       Ev.wal txid ((two_pc net parts txid op tx).decision ++ "_SENT")
         (Trail.votes (collectVotes net parts [] true).1)] ++
      deliverAll net parts
        (verdictEndpoint (two_pc net parts txid op tx).decision) ++
      [Ev.setState txid "DONE", Ev.wal txid "DONE" Trail.empty] := by
  simp [two_pc]

/-- The event trace of a `three_pc` run when every vote is YES. -/
theorem three_pc_events_pos (net : Net) (parts : List String)
    (txid op : String) (tx : Table)
    (h : (collectVotes net parts [] true).2 = true) :
    (three_pc net parts txid op tx).events =
      [Ev.txCreate ⟨txid, some "3PC", "CAN_COMMIT_SENT", [], none, parts,
          some op⟩,
       Ev.wal txid "CAN_COMMIT_SENT" (Trail.op op)] ++
      voteRpcs parts "/can_commit" ++
      [Ev.setVotes txid (collectVotes net parts [] true).1] ++
      [Ev.setDecision txid (some "PRECOMMIT"),
       Ev.setState txid "PRECOMMIT_SENT",
       Ev.wal txid "PRECOMMIT_SENT" Trail.empty] ++
      deliverAll net parts "/precommit" ++
      [Ev.sleepMs 2000] ++
      [Ev.setDecision txid (some "COMMIT"),
       Ev.setState txid "DOCOMMIT_SENT",
       Ev.wal txid "DOCOMMIT_SENT" Trail.empty] ++
      deliverAll net parts "/commit" ++
      [Ev.setState txid "DONE", Ev.wal txid "DONE" Trail.empty] := by
  simp [three_pc, h]

/-- The event trace of a `three_pc` run when some vote is not YES. -/
theorem three_pc_events_neg (net : Net) (parts : List String)
    (txid op : String) (tx : Table)
    (h : (collectVotes net parts [] true).2 = false) :
    (three_pc net parts txid op tx).events =
      [Ev.txCreate ⟨txid, some "3PC", "CAN_COMMIT_SENT", [], none, parts,
          some op⟩,
       Ev.wal txid "CAN_COMMIT_SENT" (Trail.op op)] ++
      voteRpcs parts "/can_commit" ++
      [Ev.setVotes txid (collectVotes net parts [] true).1] ++
      [Ev.setDecision txid (some "ABORT"),
       Ev.setState txid "ABORT_SENT",
       Ev.wal txid "ABORT_SENT"
         (Trail.votes (collectVotes net parts [] true).1)] ++
      deliverAll net parts "/abort" ++
      [Ev.setState txid "DONE", Ev.wal txid "DONE" Trail.empty] := by
  simp [three_pc, h]

theorem decisionHist_two_pc (net : Net) (parts : List String)
    (txid op : String) (tx : Table) :
    decisionHist (two_pc net parts txid op tx).events =
      [none, some (two_pc net parts txid op tx).decision] := by
  rw [two_pc_events]
  simp only [decisionHist_append, decisionHist_voteRpcs,
    decisionHist_deliverAll]
  simp [decisionHist, decEvt]

theorem decisionHist_three_pc (net : Net) (parts : List String)
    (txid op : String) (tx : Table) :
    decisionHist (three_pc net parts txid op tx).events =
      (if (collectVotes net parts [] true).2 then
        [none, some "PRECOMMIT", some "COMMIT"]
       else [none, some "ABORT"]) := by
  by_cases h : (collectVotes net parts [] true).2
  · rw [three_pc_events_pos net parts txid op tx h, if_pos h]
    simp only [decisionHist_append, decisionHist_voteRpcs,
      decisionHist_deliverAll]
    simp [decisionHist, decEvt]
  · rw [Bool.not_eq_true] at h
    rw [three_pc_events_neg net parts txid op tx h, if_neg (by simp [h])]
    simp only [decisionHist_append, decisionHist_voteRpcs,
      decisionHist_deliverAll]
    simp [decisionHist, decEvt]

/-- Once a history entry is `COMMIT` or `ABORT`, every later entry is
identical. -/
abbrev finalAfter (h : List (Option String)) : Prop :=
  ∀ (i j : Nat) (d d2 : Option String), i ≤ j → h[i]? = some d →
    (d = some "COMMIT" ∨ d = some "ABORT") → h[j]? = some d2 → d2 = d

theorem finalAfter_pair (x : Option String) : finalAfter [none, x] := by
  intro i j d d2 hij hi hfin hj
  have hilen : i < 2 := by
    by_contra hge
    push_neg at hge
    rw [List.getElem?_eq_none (by simpa using hge)] at hi
    cases hi
  have hjlen : j < 2 := by
    by_contra hge
    push_neg at hge
    rw [List.getElem?_eq_none (by simpa using hge)] at hj
    cases hj
  interval_cases i <;> interval_cases j <;> subst_eqs <;> simp_all

theorem finalAfter_triple :
    finalAfter [none, some "PRECOMMIT", some "COMMIT"] := by
  intro i j d d2 hij hi hfin hj
  have hilen : i < 3 := by
    by_contra hge
    push_neg at hge
    rw [List.getElem?_eq_none (by simpa using hge)] at hi
    cases hi
  have hjlen : j < 3 := by
    by_contra hge
    push_neg at hge
    rw [List.getElem?_eq_none (by simpa using hge)] at hj
    cases hj
  interval_cases i <;> interval_cases j <;> subst_eqs <;> simp_all

/-- C2's counterexample: a second `/tx/start` for the same txid overwrites
the record, changing an already-final decision from COMMIT to ABORT. -/
theorem C2_counterexample :
    (List.lookup "t1" (two_pc netAllYes ["p1"] "t1" "op" []).table).map
        TxRec.decision = some (some "COMMIT") ∧
    (List.lookup "t1"
        (two_pc netAllNo ["p1"] "t1" "op"
          (two_pc netAllYes ["p1"] "t1" "op" []).table).table).map
        TxRec.decision = some (some "ABORT") := by
  decide

/-- C2 amended: within a single `two_pc` or `three_pc` run the decision,
once set to COMMIT or ABORT, never changes afterwards, and WAL replay
never changes any existing entry (so never its decision); a further start
request for the same txid, however, overwrites the whole record. -/
theorem C2_decision_final_within_run_and_replay (net : Net)
    (parts : List String) (txid op : String) (tx : Table)
    (ps lines : List String) :
    finalAfter (decisionHist (two_pc net parts txid op tx).events) ∧
    finalAfter (decisionHist (three_pc net parts txid op tx).events) ∧
    (∀ k r, List.lookup k tx = some r →
      List.lookup k (replay_wal ps lines tx) = some r) := by
  refine ⟨?_, ?_, fun k r h => replay_preserves_lookup ps lines tx k r h⟩
  · rw [decisionHist_two_pc]
    exact finalAfter_pair _
  · rw [decisionHist_three_pc]
    by_cases h : (collectVotes net parts [] true).2
    · rw [if_pos h]
      exact finalAfter_triple
    · rw [if_neg h]
      exact finalAfter_pair _

/-- Witness for C2's amended theorem at a concrete input. -/
theorem C2_witness :
    ((some "COMMIT" : Option String) = some "COMMIT") ∧
    List.lookup "t0" (replay_wal [] ["t0 X"]
        [("t0", replayRec [] "t0" "S")]) =
      some (replayRec [] "t0" "S") :=
  ⟨(C2_decision_final_within_run_and_replay netAllYes ["p1"] "t1" "op" []
      [] []).1 1 1 (some "COMMIT") (some "COMMIT") le_rfl (by decide)
      (Or.inl rfl) (by decide),
   (C2_decision_final_within_run_and_replay netAllYes ["p1"] "t1" "op"
      [("t0", replayRec [] "t0" "S")] [] ["t0 X"]).2.2 "t0" _ (by decide)⟩

/-! ## Vote-recording (C8) and transport (C9) claims -/

theorem three_pc_votes_eq (net : Net) (parts : List String)
    (txid op : String) (tx : Table) :
    (three_pc net parts txid op tx).votes =
      (collectVotes net parts [] true).1 := by
  by_cases h : (collectVotes net parts [] true).2 <;> simp [three_pc, h]

theorem three_pc_decision_eq (net : Net) (parts : List String)
    (txid op : String) (tx : Table) :
    (three_pc net parts txid op tx).decision =
      (if parts.all (fun p => voteOf net p == "YES") then "COMMIT"
       else "ABORT") := by
  by_cases h : (collectVotes net parts [] true).2
  · have hall : parts.all (fun p => voteOf net p == "YES") = true := by
      simpa [collectVotes_snd] using h
    simp [three_pc, h, hall]
  · rw [Bool.not_eq_true] at h
    have hall : parts.all (fun p => voteOf net p == "YES") = false := by
      simpa [collectVotes_snd] using h
    simp [three_pc, h, hall]

/-- Concrete oracle: every participant answers with the non-vote string
`Maybe` and every delivery succeeds. -/
def netMaybe : Net := ⟨fun _ => .ok 200 (some "Maybe"), fun _ _ _ => true⟩

/-- C8's counterexample: a declared response of `Maybe` is recorded
verbatim (uppercased) as `MAYBE`, which is none of YES, NO, NO_TIMEOUT —
it is not normalised to NO. -/
theorem C8_counterexample :
    List.lookup "p1" (two_pc netMaybe ["p1"] "t1" "op" []).votes =
      some "MAYBE" ∧
    ("MAYBE" ≠ "YES" ∧ "MAYBE" ≠ "NO" ∧ "MAYBE" ≠ "NO_TIMEOUT") := by
  decide

/-- C8 amended: the recorded vote is `NO_TIMEOUT` when the call raises,
and otherwise the participant's declared response string uppercased
(default `NO` when the `vote` field is missing); any recorded vote other
than `YES` — whatever string it is — still forces decision `ABORT` in
both protocols. -/
theorem C8_votes_are_raw_uppercased_responses (net : Net)
    (parts : List String) (txid op : String) (tx : Table) :
    (three_pc net parts txid op tx).votes =
      (two_pc net parts txid op tx).votes ∧
    (∀ p ∈ parts,
      List.lookup p (two_pc net parts txid op tx).votes =
        some (voteOf net p)) ∧
    (∀ p, post_json (net.vote1 p) = Except.error () →
      voteOf net p = "NO_TIMEOUT") ∧
    (∀ p s v, net.vote1 p = Transport.ok s v →
      voteOf net p = pyUpper (v.getD "NO")) ∧
    ((∃ p ∈ parts,
        List.lookup p (two_pc net parts txid op tx).votes ≠ some "YES") →
      (two_pc net parts txid op tx).decision = "ABORT" ∧
      (three_pc net parts txid op tx).decision = "ABORT") := by
  have hv : (two_pc net parts txid op tx).votes =
      (collectVotes net parts [] true).1 := by
    simp [two_pc]
  have hd : (two_pc net parts txid op tx).decision =
      (if parts.all (fun p => voteOf net p == "YES") then "COMMIT"
       else "ABORT") := by
    simp [two_pc, collectVotes_snd]
  refine ⟨by rw [three_pc_votes_eq, hv], ?_, ?_, ?_, ?_⟩
  · intro p hp
    rw [hv, collectVotes_lookup, if_pos hp]
  · intro p herr
    unfold voteOf
    rw [herr]
  · intro p s v hok
    unfold voteOf
    rw [hok]
    rfl
  · intro ⟨p, hp, hne⟩
    by_cases hall : parts.all (fun p => voteOf net p == "YES") = true
    · exfalso
      apply hne
      rw [hv, collectVotes_lookup, if_pos hp]
      simp only [List.all_eq_true] at hall
      simpa using hall p hp
    · constructor
      · rw [hd, if_neg hall]
      · rw [three_pc_decision_eq, if_neg hall]

/-- Witness for C8's amended theorem: all calls time out, votes are
`NO_TIMEOUT`, both protocols abort. -/
theorem C8_witness :
    voteOf netAllDown "p1" = "NO_TIMEOUT" ∧
    (two_pc netAllDown ["p1"] "t" "o" []).decision = "ABORT" ∧
    (three_pc netAllDown ["p1"] "t" "o" []).decision = "ABORT" :=
  ⟨(C8_votes_are_raw_uppercased_responses netAllDown ["p1"] "t" "o"
      []).2.2.1 "p1" rfl,
   ((C8_votes_are_raw_uppercased_responses netAllDown ["p1"] "t" "o"
      []).2.2.2.2 ⟨"p1", by decide, by decide⟩).1,
   ((C8_votes_are_raw_uppercased_responses netAllDown ["p1"] "t" "o"
      []).2.2.2.2 ⟨"p1", by decide, by decide⟩).2⟩

/-! ## Log-before-send ordering (C4) -/

/-- The 2PC milestone whose WAL record precedes deliveries on endpoint
`e`: `/commit` is sent after `COMMIT_SENT`, `/abort` after `ABORT_SENT`. -/
def ms2 (e : String) : String :=
  if e = "/commit" then "COMMIT_SENT" else "ABORT_SENT"

/-- The 3PC milestone whose WAL record precedes deliveries on endpoint
`e`: `/commit` after `DOCOMMIT_SENT`, `/precommit` after
`PRECOMMIT_SENT`, `/abort` after `ABORT_SENT`. -/
def ms3 (e : String) : String :=
  if e = "/commit" then "DOCOMMIT_SENT"
  else if e = "/precommit" then "PRECOMMIT_SENT" else "ABORT_SENT"

theorem prefix_of_split {α : Type} {A B pre post : List α} {x : α}
    (h : A ++ B = pre ++ x :: post) (hx : x ∉ A) :
    ∃ u, pre = A ++ u ∧ B = u ++ x :: post := by
  induction A generalizing pre with
  | nil => exact ⟨pre, by simp, by simpa using h⟩
  | cons a A ih =>
      cases pre with
      | nil =>
          simp only [List.nil_append, List.cons_append] at h
          injection h with h1 _
          exact absurd (h1 ▸ List.mem_cons_self a A) hx
      | cons p1 pre =>
          simp only [List.cons_append] at h
          injection h with h1 h2
          obtain ⟨u, hu1, hu2⟩ :=
            ih h2 (fun hm => hx (List.mem_cons_of_mem a hm))
          exact ⟨u, by rw [hu1, h1, List.cons_append], hu2⟩

theorem mem_pre_of_split {α : Type} {A B pre post : List α} {x w : α}
    (hw : w ∈ A) (heq : A ++ B = pre ++ x :: post) (hx : x ∉ A) :
    w ∈ pre := by
  obtain ⟨u, hu, _⟩ := prefix_of_split heq hx
  rw [hu]
  exact List.mem_append_left _ hw

/-- Any RPC event inside a vote phase carries the vote endpoint. -/
theorem rpc_mem_voteRpcs_ep {p e ep1 : String} {parts : List String}
    (h : Ev.rpc p e ∈ voteRpcs parts ep1) : e = ep1 := by
  rcases List.mem_map.mp h with ⟨p2, _, heq⟩
  have h2 : p = p2 ∧ e = ep1 := by simpa using heq.symm
  exact h2.2

/-- Any RPC event inside a delivery phase carries its verdict endpoint. -/
theorem rpc_mem_deliverAll_ep {p e : String} {net : Net}
    {parts : List String} {ep : String}
    (h : Ev.rpc p e ∈ deliverAll net parts ep) : e = ep := by
  rcases List.mem_flatMap.mp h with ⟨p2, _, hseg⟩
  rcases mem_tryDeliver _ _ _ _ _ _ hseg with h1 | h1 | h1
  · have h2 : p = p2 ∧ e = ep := by simpa using h1
    exact h2.2
  · exact Ev.noConfusion h1
  · exact Ev.noConfusion h1

/-- In a `two_pc` trace, every verdict RPC is preceded by the WAL record
of the corresponding decision milestone. -/
theorem two_pc_wal_before_verdict (net : Net) (parts : List String)
    (txid op : String) (tx : Table) (pre post : List Ev) (p e : String)
    (heq : (two_pc net parts txid op tx).events =
      pre ++ Ev.rpc p e :: post)
    (hverdict : e = "/commit" ∨ e = "/abort" ∨ e = "/precommit") :
    ∃ tr, Ev.wal txid (ms2 e) tr ∈ pre := by
  rw [two_pc_events] at heq
  by_cases hall : (collectVotes net parts [] true).2 = true
  · have hd : (two_pc net parts txid op tx).decision = "COMMIT" := by
      simp [two_pc, hall]
    rw [hd] at heq
    rw [show verdictEndpoint "COMMIT" = "/commit" from rfl] at heq
    rw [show ("COMMIT" ++ "_SENT" : String) = "COMMIT_SENT" from rfl] at heq
    rcases hverdict with he | he | he <;> subst he
    · have heq2 :
          ([Ev.txCreate ⟨txid, some "2PC", "PREPARE_SENT", [], none,
              parts, some op⟩,
            Ev.wal txid "PREPARE_SENT" (Trail.op op)] ++
           voteRpcs parts "/prepare" ++
           [Ev.setVotes txid (collectVotes net parts [] true).1,
            Ev.setDecision txid (some "COMMIT"),
            Ev.setState txid "COMMIT_SENT",
            Ev.wal txid "COMMIT_SENT"
              (Trail.votes (collectVotes net parts [] true).1)]) ++
          (deliverAll net parts "/commit" ++
           [Ev.setState txid "DONE", Ev.wal txid "DONE" Trail.empty]) =
          pre ++ Ev.rpc p "/commit" :: post := by
        simpa [List.append_assoc] using heq
      have hx : Ev.rpc p "/commit" ∉
          ([Ev.txCreate ⟨txid, some "2PC", "PREPARE_SENT", [], none,
              parts, some op⟩,
            Ev.wal txid "PREPARE_SENT" (Trail.op op)] ++
           voteRpcs parts "/prepare" ++
           [Ev.setVotes txid (collectVotes net parts [] true).1,
            Ev.setDecision txid (some "COMMIT"),
            Ev.setState txid "COMMIT_SENT",
            Ev.wal txid "COMMIT_SENT"
              (Trail.votes (collectVotes net parts [] true).1)]) := by
        intro hm
        simp only [List.mem_append] at hm
        rcases hm with (hm | hm) | hm
        · simp at hm
        · exact absurd (rpc_mem_voteRpcs_ep hm) (by decide)
        · simp at hm
      refine ⟨Trail.votes (collectVotes net parts [] true).1, ?_⟩
      rw [show ms2 "/commit" = "COMMIT_SENT" by decide]
      exact mem_pre_of_split (by simp) heq2 hx
    · exfalso
      have hx0 : Ev.rpc p "/abort" ∈
          pre ++ Ev.rpc p "/abort" :: post := by simp
      rw [← heq] at hx0
      simp only [List.mem_append] at hx0
      rcases hx0 with (((hm | hm) | hm) | hm) | hm
      · simp at hm
      · exact absurd (rpc_mem_voteRpcs_ep hm) (by decide)
      · simp at hm
      · exact absurd (rpc_mem_deliverAll_ep hm) (by decide)
      · simp at hm
    · exfalso
      have hx0 : Ev.rpc p "/precommit" ∈
          pre ++ Ev.rpc p "/precommit" :: post := by simp
      rw [← heq] at hx0
      simp only [List.mem_append] at hx0
      rcases hx0 with (((hm | hm) | hm) | hm) | hm
      · simp at hm
      · exact absurd (rpc_mem_voteRpcs_ep hm) (by decide)
      · simp at hm
      · exact absurd (rpc_mem_deliverAll_ep hm) (by decide)
      · simp at hm
  · rw [Bool.not_eq_true] at hall
    have hd : (two_pc net parts txid op tx).decision = "ABORT" := by
      simp [two_pc, hall]
    rw [hd] at heq
    rw [show verdictEndpoint "ABORT" = "/abort" from rfl] at heq
    rw [show ("ABORT" ++ "_SENT" : String) = "ABORT_SENT" from rfl] at heq
    rcases hverdict with he | he | he <;> subst he
    · exfalso
      have hx0 : Ev.rpc p "/commit" ∈
          pre ++ Ev.rpc p "/commit" :: post := by simp
      rw [← heq] at hx0
      simp only [List.mem_append] at hx0
      rcases hx0 with (((hm | hm) | hm) | hm) | hm
      · simp at hm
      · exact absurd (rpc_mem_voteRpcs_ep hm) (by decide)
      · simp at hm
      · exact absurd (rpc_mem_deliverAll_ep hm) (by decide)
      · simp at hm
    · have heq2 :
          ([Ev.txCreate ⟨txid, some "2PC", "PREPARE_SENT", [], none,
              parts, some op⟩,
            Ev.wal txid "PREPARE_SENT" (Trail.op op)] ++
           voteRpcs parts "/prepare" ++
           [Ev.setVotes txid (collectVotes net parts [] true).1,
            Ev.setDecision txid (some "ABORT"),
            Ev.setState txid "ABORT_SENT",
            Ev.wal txid "ABORT_SENT"
              (Trail.votes (collectVotes net parts [] true).1)]) ++
          (deliverAll net parts "/abort" ++
           [Ev.setState txid "DONE", Ev.wal txid "DONE" Trail.empty]) =
          pre ++ Ev.rpc p "/abort" :: post := by
        simpa [List.append_assoc] using heq
      have hx : Ev.rpc p "/abort" ∉
          ([Ev.txCreate ⟨txid, some "2PC", "PREPARE_SENT", [], none,
              parts, some op⟩,
            Ev.wal txid "PREPARE_SENT" (Trail.op op)] ++
           voteRpcs parts "/prepare" ++
           [Ev.setVotes txid (collectVotes net parts [] true).1,
            Ev.setDecision txid (some "ABORT"),
            Ev.setState txid "ABORT_SENT",
            Ev.wal txid "ABORT_SENT"
              (Trail.votes (collectVotes net parts [] true).1)]) := by
        intro hm
        simp only [List.mem_append] at hm
        rcases hm with (hm | hm) | hm
        · simp at hm
        · exact absurd (rpc_mem_voteRpcs_ep hm) (by decide)
        · simp at hm
      refine ⟨Trail.votes (collectVotes net parts [] true).1, ?_⟩
      rw [show ms2 "/abort" = "ABORT_SENT" by decide]
      exact mem_pre_of_split (by simp) heq2 hx
    · exfalso
      have hx0 : Ev.rpc p "/precommit" ∈
          pre ++ Ev.rpc p "/precommit" :: post := by simp
      rw [← heq] at hx0
      simp only [List.mem_append] at hx0
      rcases hx0 with (((hm | hm) | hm) | hm) | hm
      · simp at hm
      · exact absurd (rpc_mem_voteRpcs_ep hm) (by decide)
      · simp at hm
      · exact absurd (rpc_mem_deliverAll_ep hm) (by decide)
      · simp at hm

/-- In a `three_pc` trace, every verdict RPC is preceded by the WAL
record of the corresponding decision milestone. -/
theorem three_pc_wal_before_verdict (net : Net) (parts : List String)
    (txid op : String) (tx : Table) (pre post : List Ev) (p e : String)
    (heq : (three_pc net parts txid op tx).events =
      pre ++ Ev.rpc p e :: post)
    (hverdict : e = "/commit" ∨ e = "/abort" ∨ e = "/precommit") :
    ∃ tr, Ev.wal txid (ms3 e) tr ∈ pre := by
  by_cases hall : (collectVotes net parts [] true).2 = true
  · rw [three_pc_events_pos net parts txid op tx hall] at heq
    rcases hverdict with he | he | he <;> subst he
    · have heq2 :
          ([Ev.txCreate ⟨txid, some "3PC", "CAN_COMMIT_SENT", [], none,
              parts, some op⟩,
            Ev.wal txid "CAN_COMMIT_SENT" (Trail.op op)] ++
           voteRpcs parts "/can_commit" ++
           [Ev.setVotes txid (collectVotes net parts [] true).1] ++
           [Ev.setDecision txid (some "PRECOMMIT"),
            Ev.setState txid "PRECOMMIT_SENT",
            Ev.wal txid "PRECOMMIT_SENT" Trail.empty] ++
           deliverAll net parts "/precommit" ++
           [Ev.sleepMs 2000] ++
           [Ev.setDecision txid (some "COMMIT"),
            Ev.setState txid "DOCOMMIT_SENT",
            Ev.wal txid "DOCOMMIT_SENT" Trail.empty]) ++
          (deliverAll net parts "/commit" ++
           [Ev.setState txid "DONE", Ev.wal txid "DONE" Trail.empty]) =
          pre ++ Ev.rpc p "/commit" :: post := by
        simpa [List.append_assoc] using heq
      have hx : Ev.rpc p "/commit" ∉
          ([Ev.txCreate ⟨txid, some "3PC", "CAN_COMMIT_SENT", [], none,
              parts, some op⟩,
            Ev.wal txid "CAN_COMMIT_SENT" (Trail.op op)] ++
           voteRpcs parts "/can_commit" ++
           [Ev.setVotes txid (collectVotes net parts [] true).1] ++
           [Ev.setDecision txid (some "PRECOMMIT"),
            Ev.setState txid "PRECOMMIT_SENT",
            Ev.wal txid "PRECOMMIT_SENT" Trail.empty] ++
           deliverAll net parts "/precommit" ++
           [Ev.sleepMs 2000] ++
           [Ev.setDecision txid (some "COMMIT"),
            Ev.setState txid "DOCOMMIT_SENT",
            Ev.wal txid "DOCOMMIT_SENT" Trail.empty]) := by
        intro hm
        simp only [List.mem_append] at hm
        rcases hm with (((((hm | hm) | hm) | hm) | hm) | hm) | hm
        · simp at hm
        · exact absurd (rpc_mem_voteRpcs_ep hm) (by decide)
        · simp at hm
        · simp at hm
        · exact absurd (rpc_mem_deliverAll_ep hm) (by decide)
        · simp at hm
        · simp at hm
      refine ⟨Trail.empty, ?_⟩
      rw [show ms3 "/commit" = "DOCOMMIT_SENT" by decide]
      exact mem_pre_of_split (by simp) heq2 hx
    · exfalso
      have hx0 : Ev.rpc p "/abort" ∈
          pre ++ Ev.rpc p "/abort" :: post := by simp
      rw [← heq] at hx0
      simp only [List.mem_append] at hx0
      rcases hx0 with
        (((((((hm | hm) | hm) | hm) | hm) | hm) | hm) | hm) | hm
      · simp at hm
      · exact absurd (rpc_mem_voteRpcs_ep hm) (by decide)
      · simp at hm
      · simp at hm
      · exact absurd (rpc_mem_deliverAll_ep hm) (by decide)
      · simp at hm
      · simp at hm
      · exact absurd (rpc_mem_deliverAll_ep hm) (by decide)
      · simp at hm
    · have heq2 :
          ([Ev.txCreate ⟨txid, some "3PC", "CAN_COMMIT_SENT", [], none,
              parts, some op⟩,
            Ev.wal txid "CAN_COMMIT_SENT" (Trail.op op)] ++
           voteRpcs parts "/can_commit" ++
           [Ev.setVotes txid (collectVotes net parts [] true).1] ++
           [Ev.setDecision txid (some "PRECOMMIT"),
            Ev.setState txid "PRECOMMIT_SENT",
            Ev.wal txid "PRECOMMIT_SENT" Trail.empty]) ++
          (deliverAll net parts "/precommit" ++
           ([Ev.sleepMs 2000] ++
            ([Ev.setDecision txid (some "COMMIT"),
              Ev.setState txid "DOCOMMIT_SENT",
              Ev.wal txid "DOCOMMIT_SENT" Trail.empty] ++
             (deliverAll net parts "/commit" ++
              [Ev.setState txid "DONE",
               Ev.wal txid "DONE" Trail.empty])))) =
          pre ++ Ev.rpc p "/precommit" :: post := by
        simpa [List.append_assoc] using heq
      have hx : Ev.rpc p "/precommit" ∉
          ([Ev.txCreate ⟨txid, some "3PC", "CAN_COMMIT_SENT", [], none,
              parts, some op⟩,
            Ev.wal txid "CAN_COMMIT_SENT" (Trail.op op)] ++
           voteRpcs parts "/can_commit" ++
           [Ev.setVotes txid (collectVotes net parts [] true).1] ++
           [Ev.setDecision txid (some "PRECOMMIT"),
            Ev.setState txid "PRECOMMIT_SENT",
            Ev.wal txid "PRECOMMIT_SENT" Trail.empty]) := by
        intro hm
        simp only [List.mem_append] at hm
        rcases hm with ((hm | hm) | hm) | hm
        · simp at hm
        · exact absurd (rpc_mem_voteRpcs_ep hm) (by decide)
        · simp at hm
        · simp at hm
      refine ⟨Trail.empty, ?_⟩
      rw [show ms3 "/precommit" = "PRECOMMIT_SENT" by decide]
      exact mem_pre_of_split (by simp) heq2 hx
  · rw [Bool.not_eq_true] at hall
    rw [three_pc_events_neg net parts txid op tx hall] at heq
    rcases hverdict with he | he | he <;> subst he
    · exfalso
      have hx0 : Ev.rpc p "/commit" ∈
          pre ++ Ev.rpc p "/commit" :: post := by simp
      rw [← heq] at hx0
      simp only [List.mem_append] at hx0
      rcases hx0 with ((((hm | hm) | hm) | hm) | hm) | hm
      · simp at hm
      · exact absurd (rpc_mem_voteRpcs_ep hm) (by decide)
      · simp at hm
      · simp at hm
      · exact absurd (rpc_mem_deliverAll_ep hm) (by decide)
      · simp at hm
    · have heq2 :
          ([Ev.txCreate ⟨txid, some "3PC", "CAN_COMMIT_SENT", [], none,
              parts, some op⟩,
            Ev.wal txid "CAN_COMMIT_SENT" (Trail.op op)] ++
           voteRpcs parts "/can_commit" ++
           [Ev.setVotes txid (collectVotes net parts [] true).1] ++
           [Ev.setDecision txid (some "ABORT"),
            Ev.setState txid "ABORT_SENT",
            Ev.wal txid "ABORT_SENT"
              (Trail.votes (collectVotes net parts [] true).1)]) ++
          (deliverAll net parts "/abort" ++
           [Ev.setState txid "DONE", Ev.wal txid "DONE" Trail.empty]) =
          pre ++ Ev.rpc p "/abort" :: post := by
        simpa [List.append_assoc] using heq
      have hx : Ev.rpc p "/abort" ∉
          ([Ev.txCreate ⟨txid, some "3PC", "CAN_COMMIT_SENT", [], none,
              parts, some op⟩,
            Ev.wal txid "CAN_COMMIT_SENT" (Trail.op op)] ++
           voteRpcs parts "/can_commit" ++
           [Ev.setVotes txid (collectVotes net parts [] true).1] ++
           [Ev.setDecision txid (some "ABORT"),
            Ev.setState txid "ABORT_SENT",
            Ev.wal txid "ABORT_SENT"
              (Trail.votes (collectVotes net parts [] true).1)]) := by
        intro hm
        simp only [List.mem_append] at hm
        rcases hm with ((hm | hm) | hm) | hm
        · simp at hm
        · exact absurd (rpc_mem_voteRpcs_ep hm) (by decide)
        · simp at hm
        · simp at hm
      refine ⟨Trail.votes (collectVotes net parts [] true).1, ?_⟩
      rw [show ms3 "/abort" = "ABORT_SENT" by decide]
      exact mem_pre_of_split (by simp) heq2 hx
    · exfalso
      have hx0 : Ev.rpc p "/precommit" ∈
          pre ++ Ev.rpc p "/precommit" :: post := by simp
      rw [← heq] at hx0
      simp only [List.mem_append] at hx0
      rcases hx0 with ((((hm | hm) | hm) | hm) | hm) | hm
      · simp at hm
      · exact absurd (rpc_mem_voteRpcs_ep hm) (by decide)
      · simp at hm
      · simp at hm
      · exact absurd (rpc_mem_deliverAll_ep hm) (by decide)
      · simp at hm

/-- C4: in both protocols, the WAL record of a decision milestone
(COMMIT_SENT, ABORT_SENT, PRECOMMIT_SENT, or DOCOMMIT_SENT) is appended
before any RPC delivering that verdict (`/commit`, `/abort`,
`/precommit`) is issued to any participant. -/
theorem C4_wal_logged_before_verdict_rpcs (net : Net)
    (parts : List String) (txid op : String) (tx : Table)
    (pre post : List Ev) (p e : String) :
    ((two_pc net parts txid op tx).events = pre ++ Ev.rpc p e :: post →
      (e = "/commit" ∨ e = "/abort" ∨ e = "/precommit") →
      ∃ tr, Ev.wal txid (ms2 e) tr ∈ pre) ∧
    ((three_pc net parts txid op tx).events = pre ++ Ev.rpc p e :: post →
      (e = "/commit" ∨ e = "/abort" ∨ e = "/precommit") →
      ∃ tr, Ev.wal txid (ms3 e) tr ∈ pre) :=
  ⟨fun heq hv =>
    two_pc_wal_before_verdict net parts txid op tx pre post p e heq hv,
   fun heq hv =>
    three_pc_wal_before_verdict net parts txid op tx pre post p e heq hv⟩

/-- Witness for C4 at a concrete input: the one `/commit` RPC of a
single-participant all-YES 2PC run is preceded by the `COMMIT_SENT` WAL
record. -/
theorem C4_witness :
    ∃ tr, Ev.wal "t" (ms2 "/commit") tr ∈
      [Ev.txCreate ⟨"t", some "2PC", "PREPARE_SENT", [], none, ["p1"],
          some "o"⟩,
       Ev.wal "t" "PREPARE_SENT" (Trail.op "o"),
       Ev.rpc "p1" "/prepare",
       Ev.setVotes "t" [("p1", "YES")],
       Ev.setDecision "t" (some "COMMIT"),
       Ev.setState "t" "COMMIT_SENT",
       Ev.wal "t" "COMMIT_SENT" (Trail.votes [("p1", "YES")])] :=
  (C4_wal_logged_before_verdict_rpcs netAllYes ["p1"] "t" "o" []
    [Ev.txCreate ⟨"t", some "2PC", "PREPARE_SENT", [], none, ["p1"],
        some "o"⟩,
     Ev.wal "t" "PREPARE_SENT" (Trail.op "o"),
     Ev.rpc "p1" "/prepare",
     Ev.setVotes "t" [("p1", "YES")],
     Ev.setDecision "t" (some "COMMIT"),
     Ev.setState "t" "COMMIT_SENT",
     Ev.wal "t" "COMMIT_SENT" (Trail.votes [("p1", "YES")])]
    [Ev.setState "t" "DONE", Ev.wal "t" "DONE" Trail.empty]
    "p1" "/commit").1 (by decide) (Or.inl rfl)

/-! ## Bounded-retry delivery (C7) -/

/-- Is this event an RPC attempt by participant `q` on endpoint `ep`? -/
def isRpcTo (q ep : String) : Ev → Bool
  | .rpc p e => p == q && e == ep
  | _ => false

/-- A participant failing all three attempts yields exactly: attempt,
0.5 s sleep, attempt, 0.5 s sleep, attempt, 0.5 s sleep, failure log. -/
theorem tryDeliver_allfail (d : Nat → Bool) (p ep : String)
    (hf : ∀ i, d i = false) :
    tryDeliver d p ep 3 0 =
      [Ev.rpc p ep, Ev.sleepMs 500, Ev.rpc p ep, Ev.sleepMs 500,
       Ev.rpc p ep, Ev.sleepMs 500, Ev.logFail p ep] := by
  simp [tryDeliver, hf 0, hf 1, hf 2]

theorem countP_tryDeliver_ne (d : Nat → Bool) (p ep q ep0 : String)
    (n i : Nat) (h : p ≠ q ∨ ep ≠ ep0) :
    List.countP (isRpcTo q ep0) (tryDeliver d p ep n i) = 0 := by
  rw [List.countP_eq_zero]
  intro a ha
  rcases mem_tryDeliver a d p ep n i ha with h1 | h1 | h1 <;> subst h1
  · rcases h with h | h <;> simp [isRpcTo, h]
  · simp [isRpcTo]
  · simp [isRpcTo]

theorem countP_tryDeliver_allfail (d : Nat → Bool) (q ep0 : String)
    (hf : ∀ i, d i = false) :
    List.countP (isRpcTo q ep0) (tryDeliver d q ep0 3 0) = 3 := by
  rw [tryDeliver_allfail d q ep0 hf]
  simp [List.countP_cons, isRpcTo]

theorem countP_voteRpcs_ne (parts : List String) (ep1 q ep0 : String)
    (h : ep1 ≠ ep0) :
    List.countP (isRpcTo q ep0) (voteRpcs parts ep1) = 0 := by
  rw [List.countP_eq_zero]
  intro a ha
  rcases List.mem_map.mp ha with ⟨p, _, hpe⟩
  subst hpe
  simp [isRpcTo, h]

theorem countP_deliverAll_notmem (net : Net) (parts : List String)
    (ep q ep0 : String) (h : q ∉ parts) :
    List.countP (isRpcTo q ep0) (deliverAll net parts ep) = 0 := by
  induction parts with
  | nil => rfl
  | cons p ps ih =>
      have hpq : p ≠ q := by
        rintro rfl
        exact h (List.mem_cons_self p ps)
      rw [deliverAll, List.flatMap_cons, List.countP_append]
      rw [countP_tryDeliver_ne _ _ _ _ _ _ _ (Or.inl hpq)]
      have h2 := ih (fun hm => h (List.mem_cons_of_mem p hm))
      simpa [deliverAll] using h2

theorem countP_deliverAll_ne_ep (net : Net) (parts : List String)
    (ep q ep0 : String) (h : ep ≠ ep0) :
    List.countP (isRpcTo q ep0) (deliverAll net parts ep) = 0 := by
  induction parts with
  | nil => rfl
  | cons p ps ih =>
      rw [deliverAll, List.flatMap_cons, List.countP_append]
      rw [countP_tryDeliver_ne _ _ _ _ _ _ _ (Or.inr h)]
      simpa [deliverAll] using ih

theorem countP_deliverAll_allfail (net : Net) (parts : List String)
    (ep q : String) (hq : q ∈ parts) (hnd : parts.Nodup)
    (hf : ∀ i, net.deliver q ep i = false) :
    List.countP (isRpcTo q ep) (deliverAll net parts ep) = 3 := by
  induction parts with
  | nil => cases hq
  | cons p ps ih =>
      rw [deliverAll, List.flatMap_cons, List.countP_append]
      rcases List.mem_cons.mp hq with h1 | h1
      · subst h1
        rw [countP_tryDeliver_allfail _ _ _ hf]
        have hnm : q ∉ ps := (List.nodup_cons.mp hnd).1
        have h0 := countP_deliverAll_notmem net ps ep q ep hnm
        simp only [deliverAll] at h0
        rw [h0]
      · have hpq : p ≠ q := by
          rintro rfl
          exact (List.nodup_cons.mp hnd).1 h1
        rw [countP_tryDeliver_ne _ _ _ _ _ _ _ (Or.inl hpq)]
        have h3 := ih h1 (List.nodup_cons.mp hnd).2
        simpa [deliverAll] using h3

theorem isInfix_append_of_isInfix {α : Type} {seg M : List α}
    (A B : List α) (h : List.IsInfix seg M) :
    List.IsInfix seg (A ++ M ++ B) := by
  obtain ⟨s, t, rfl⟩ := h
  exact ⟨A ++ s, t ++ B, by simp [List.append_assoc]⟩

theorem tryDeliver_infix_deliverAll (net : Net) (parts : List String)
    (ep q : String) (hq : q ∈ parts) :
    List.IsInfix (tryDeliver (net.deliver q ep) q ep 3 0)
      (deliverAll net parts ep) := by
  rcases List.append_of_mem hq with ⟨s, t, rfl⟩
  refine ⟨deliverAll net s ep, deliverAll net t ep, ?_⟩
  simp [deliverAll, List.flatMap_append, List.flatMap_cons,
    List.append_assoc]

theorem verdictEndpoint_ne_prepare (d : String) :
    "/prepare" ≠ verdictEndpoint d := by
  unfold verdictEndpoint
  by_cases h : (d == "COMMIT") = true <;> simp [h]

/-- C7: for a participant `q` whose every final-verdict delivery attempt
fails, each protocol makes exactly 3 RPC attempts to `q` on the verdict
endpoint, the contiguous attempt/0.5 s-sleep/attempt/…/failure-log block
appears in the trace, the exhaustion is logged non-fatally, and the
transaction still reaches DONE with the run returning ok. -/
theorem C7_exactly_three_retries_then_proceed (net : Net)
    (parts : List String) (txid op : String) (tx : Table) (q : String)
    (hnd : parts.Nodup) (hq : q ∈ parts)
    (hf2 : ∀ i, net.deliver q
      (verdictEndpoint (two_pc net parts txid op tx).decision) i = false)
    (hf3 : ∀ i, net.deliver q
      (verdictEndpoint (three_pc net parts txid op tx).decision) i = false) :
    (List.countP
        (isRpcTo q
          (verdictEndpoint (two_pc net parts txid op tx).decision))
        (two_pc net parts txid op tx).events = 3 ∧
      List.IsInfix
        [Ev.rpc q (verdictEndpoint (two_pc net parts txid op tx).decision),
         Ev.sleepMs 500,
         Ev.rpc q (verdictEndpoint (two_pc net parts txid op tx).decision),
         Ev.sleepMs 500,
         Ev.rpc q (verdictEndpoint (two_pc net parts txid op tx).decision),
         Ev.sleepMs 500,
         Ev.logFail q
           (verdictEndpoint (two_pc net parts txid op tx).decision)]
        (two_pc net parts txid op tx).events ∧
      Ev.logFail q (verdictEndpoint (two_pc net parts txid op tx).decision)
        ∈ (two_pc net parts txid op tx).events ∧
      (two_pc net parts txid op tx).tx.state = "DONE" ∧
      (two_pc net parts txid op tx).ok = true) ∧
    (List.countP
        (isRpcTo q
          (verdictEndpoint (three_pc net parts txid op tx).decision))
        (three_pc net parts txid op tx).events = 3 ∧
      List.IsInfix
        [Ev.rpc q
           (verdictEndpoint (three_pc net parts txid op tx).decision),
         Ev.sleepMs 500,
         Ev.rpc q
           (verdictEndpoint (three_pc net parts txid op tx).decision),
         Ev.sleepMs 500,
         Ev.rpc q
           (verdictEndpoint (three_pc net parts txid op tx).decision),
         Ev.sleepMs 500,
         Ev.logFail q
           (verdictEndpoint (three_pc net parts txid op tx).decision)]
        (three_pc net parts txid op tx).events ∧
      Ev.logFail q
          (verdictEndpoint (three_pc net parts txid op tx).decision)
        ∈ (three_pc net parts txid op tx).events ∧
      (three_pc net parts txid op tx).tx.state = "DONE" ∧
      (three_pc net parts txid op tx).ok = true) := by
  constructor
  · have hinf : List.IsInfix
        [Ev.rpc q (verdictEndpoint (two_pc net parts txid op tx).decision),
         Ev.sleepMs 500,
         Ev.rpc q (verdictEndpoint (two_pc net parts txid op tx).decision),
         Ev.sleepMs 500,
         Ev.rpc q (verdictEndpoint (two_pc net parts txid op tx).decision),
         Ev.sleepMs 500,
         Ev.logFail q
           (verdictEndpoint (two_pc net parts txid op tx).decision)]
        (two_pc net parts txid op tx).events := by
      rw [two_pc_events, ← tryDeliver_allfail _ _ _ hf2]
      exact isInfix_append_of_isInfix _ _
        (tryDeliver_infix_deliverAll net parts _ q hq)
    refine ⟨?_, hinf, hinf.subset (by simp), by simp [two_pc],
      by simp [two_pc]⟩
    rw [two_pc_events]
    simp only [List.countP_append]
    rw [countP_voteRpcs_ne parts "/prepare" q _
        (verdictEndpoint_ne_prepare _),
      countP_deliverAll_allfail net parts _ q hq hnd hf2]
    simp [List.countP_cons, isRpcTo]
  · by_cases hall : (collectVotes net parts [] true).2 = true
    · have hdec : (three_pc net parts txid op tx).decision = "COMMIT" := by
        simp [three_pc, hall]
      rw [hdec] at hf3 ⊢
      have hvE : verdictEndpoint "COMMIT" = "/commit" := rfl
      rw [hvE] at hf3 ⊢
      have hinf : List.IsInfix
          [Ev.rpc q "/commit", Ev.sleepMs 500, Ev.rpc q "/commit",
           Ev.sleepMs 500, Ev.rpc q "/commit", Ev.sleepMs 500,
           Ev.logFail q "/commit"]
          (three_pc net parts txid op tx).events := by
        rw [three_pc_events_pos net parts txid op tx hall,
          ← tryDeliver_allfail _ _ _ hf3]
        exact isInfix_append_of_isInfix _ _
          (tryDeliver_infix_deliverAll net parts "/commit" q hq)
      refine ⟨?_, hinf, hinf.subset (by simp),
        by simp [three_pc, hall], by simp [three_pc, hall]⟩
      rw [three_pc_events_pos net parts txid op tx hall]
      simp only [List.countP_append]
      rw [countP_voteRpcs_ne parts "/can_commit" q "/commit" (by decide),
        countP_deliverAll_ne_ep net parts "/precommit" q "/commit"
          (by decide),
        countP_deliverAll_allfail net parts "/commit" q hq hnd hf3]
      simp [List.countP_cons, isRpcTo]
    · rw [Bool.not_eq_true] at hall
      have hdec : (three_pc net parts txid op tx).decision = "ABORT" := by
        simp [three_pc, hall]
      rw [hdec] at hf3 ⊢
      have hvE : verdictEndpoint "ABORT" = "/abort" := rfl
      rw [hvE] at hf3 ⊢
      have hinf : List.IsInfix
          [Ev.rpc q "/abort", Ev.sleepMs 500, Ev.rpc q "/abort",
           Ev.sleepMs 500, Ev.rpc q "/abort", Ev.sleepMs 500,
           Ev.logFail q "/abort"]
          (three_pc net parts txid op tx).events := by
        rw [three_pc_events_neg net parts txid op tx hall,
          ← tryDeliver_allfail _ _ _ hf3]
        exact isInfix_append_of_isInfix _ _
          (tryDeliver_infix_deliverAll net parts "/abort" q hq)
      refine ⟨?_, hinf, hinf.subset (by simp),
        by simp [three_pc, hall], by simp [three_pc, hall]⟩
      rw [three_pc_events_neg net parts txid op tx hall]
      simp only [List.countP_append]
      rw [countP_voteRpcs_ne parts "/can_commit" q "/abort" (by decide),
        countP_deliverAll_allfail net parts "/abort" q hq hnd hf3]
      simp [List.countP_cons, isRpcTo]

/-- Concrete oracle: every participant votes `YES`, but every delivery
attempt fails. -/
def netYesDown : Net := ⟨fun _ => .ok 200 (some "YES"), fun _ _ _ => false⟩

/-- Witness for C7 at a concrete input: one participant, all deliveries
failing. -/
theorem C7_witness :
    List.countP
        (isRpcTo "p1"
          (verdictEndpoint (two_pc netYesDown ["p1"] "t" "o" []).decision))
        (two_pc netYesDown ["p1"] "t" "o" []).events = 3 ∧
    (three_pc netYesDown ["p1"] "t" "o" []).ok = true :=
  ⟨(C7_exactly_three_retries_then_proceed netYesDown ["p1"] "t" "o" []
      "p1" (by decide) (by decide) (fun i => rfl) (fun i => rfl)).1.1,
   (C7_exactly_three_retries_then_proceed netYesDown ["p1"] "t" "o" []
      "p1" (by decide) (by decide) (fun i => rfl) (fun i => rfl)).2.2.2.2.2⟩

/-! ## WAL milestone sequences (C5) -/

/-- The state field a WAL-append event records, if the event is one. -/
def walSt : Ev → Option String
  | .wal _ st _ => some st
  | _ => none

/-- The sequence of milestone states appended to the WAL, in order. -/
def walSts (evs : List Ev) : List String := evs.filterMap walSt

theorem walSts_append (a b : List Ev) :
    walSts (a ++ b) = walSts a ++ walSts b :=
  List.filterMap_append a b walSt

theorem walSts_voteRpcs (parts : List String) (ep : String) :
    walSts (voteRpcs parts ep) = [] := by
  induction parts with
  | nil => rfl
  | cons p ps ih =>
      simp only [voteRpcs, List.map_cons, walSts, List.filterMap_cons,
        walSt] at ih ⊢
      exact ih

theorem walSts_tryDeliver (d : Nat → Bool) (p ep : String) (n i : Nat) :
    walSts (tryDeliver d p ep n i) = [] := by
  rw [walSts, List.filterMap_eq_nil_iff]
  intro a ha
  rcases mem_tryDeliver a d p ep n i ha with h | h | h <;> subst h <;> rfl

theorem walSts_deliverAll (net : Net) (parts : List String) (ep : String) :
    walSts (deliverAll net parts ep) = [] := by
  induction parts with
  | nil => rfl
  | cons p ps ih =>
      simp only [deliverAll, List.flatMap_cons] at ih ⊢
      rw [walSts_append, walSts_tryDeliver, List.nil_append]
      exact ih

/-- C5: the milestone sequence a `three_pc` run writes to the WAL is
exactly CAN_COMMIT_SENT, PRECOMMIT_SENT, DOCOMMIT_SENT, DONE when every
vote is YES, and exactly CAN_COMMIT_SENT, ABORT_SENT, DONE — with
PRECOMMIT_SENT never appearing — when some vote is not YES. -/
theorem C5_three_pc_milestone_sequence (net : Net) (parts : List String)
    (txid op : String) (tx : Table) :
    ((∀ p ∈ parts, voteOf net p = "YES") →
      walSts (three_pc net parts txid op tx).events =
        ["CAN_COMMIT_SENT", "PRECOMMIT_SENT", "DOCOMMIT_SENT", "DONE"]) ∧
    ((∃ p ∈ parts, voteOf net p ≠ "YES") →
      walSts (three_pc net parts txid op tx).events =
        ["CAN_COMMIT_SENT", "ABORT_SENT", "DONE"] ∧
      "PRECOMMIT_SENT" ∉ walSts (three_pc net parts txid op tx).events) := by
  constructor
  · intro hyes
    have h2 : (collectVotes net parts [] true).2 = true := by
      rw [collectVotes_snd, Bool.true_and, List.all_eq_true]
      intro p hp
      simpa using hyes p hp
    rw [three_pc_events_pos net parts txid op tx h2]
    simp only [walSts_append, walSts_voteRpcs, walSts_deliverAll]
    simp [walSts, walSt]
  · intro ⟨p, hp, hne⟩
    have h2 : (collectVotes net parts [] true).2 = false := by
      rw [collectVotes_snd, Bool.true_and]
      rw [List.all_eq_false]
      exact ⟨p, hp, by simpa using hne⟩
    have hev :
        walSts (three_pc net parts txid op tx).events =
          ["CAN_COMMIT_SENT", "ABORT_SENT", "DONE"] := by
      rw [three_pc_events_neg net parts txid op tx h2]
      simp only [walSts_append, walSts_voteRpcs, walSts_deliverAll]
      simp [walSts, walSt]
    refine ⟨hev, ?_⟩
    rw [hev]
    decide

/-- Witness for C5 at concrete inputs: an all-YES participant set and an
all-NO one. -/
theorem C5_witness :
    walSts (three_pc netAllYes ["p1"] "t" "o" []).events =
      ["CAN_COMMIT_SENT", "PRECOMMIT_SENT", "DOCOMMIT_SENT", "DONE"] ∧
    walSts (three_pc netAllNo ["p1"] "t" "o" []).events =
      ["CAN_COMMIT_SENT", "ABORT_SENT", "DONE"] :=
  ⟨(C5_three_pc_milestone_sequence netAllYes ["p1"] "t" "o" []).1
      (by decide),
   ((C5_three_pc_milestone_sequence netAllNo ["p1"] "t" "o" []).2
      ⟨"p1", by decide, by decide⟩).1⟩

/-- C9's counterexample: `post_json` does raise — every transport failure
mode is an exception (`Except.error`) surfaced to the caller, not a
returned `Failure` value. -/
theorem C9_counterexample :
    post_json Transport.timeout = Except.error () ∧
    post_json Transport.connError = Except.error () ∧
    post_json Transport.malformed = Except.error () :=
  ⟨rfl, rfl, rfl⟩

/-- C9 amended: `post_json` returns the parsed response on success and
propagates connection errors, timeouts, and malformed responses as
exceptions; each caller catches them — in the voting phase an exception
is absorbed as vote `NO_TIMEOUT` and the run still completes
with `ok = True`. -/
theorem C9_post_json_raises_and_callers_catch (net : Net)
    (parts : List String) (txid op : String) (tx : Table) (p : String) :
    (∀ s v, post_json (Transport.ok s v) = Except.ok (s, v)) ∧
    (∀ tr, post_json tr = Except.error () ↔
      (tr = Transport.connError ∨ tr = Transport.timeout ∨
        tr = Transport.malformed)) ∧
    (p ∈ parts → post_json (net.vote1 p) = Except.error () →
      List.lookup p (two_pc net parts txid op tx).votes =
          some "NO_TIMEOUT" ∧
        (two_pc net parts txid op tx).ok = true) := by
  refine ⟨fun s v => rfl, ?_, ?_⟩
  · intro tr
    cases tr <;> simp [post_json]
  · intro hp herr
    refine ⟨?_, by simp [two_pc]⟩
    have hv : (two_pc net parts txid op tx).votes =
        (collectVotes net parts [] true).1 := by
      simp [two_pc]
    rw [hv, collectVotes_lookup, if_pos hp]
    unfold voteOf
    rw [herr]

/-- Witness for C9's amended theorem: with every call timing out, the
participant's vote is recorded as `NO_TIMEOUT` and the run returns ok. -/
theorem C9_witness :
    List.lookup "p1" (two_pc netAllDown ["p1"] "t" "o" []).votes =
      some "NO_TIMEOUT" ∧
    (two_pc netAllDown ["p1"] "t" "o" []).ok = true :=
  (C9_post_json_raises_and_callers_catch netAllDown ["p1"] "t" "o" []
    "p1").2.2 (by decide) rfl

end Coordinator
